import Mathlib

/-!
Shallow embedding of the vault-key sealing subsystem of
pkg/pillar/evetpm/tpm.go (package evetpm).

Modelling conventions:
* machine bytes are naturals, byte strings are lists of naturals;
* the TPM and the filesystem are one explicit state (`Env`): NV storage is a
  map from handle to optional contents, the SHA256 PCR bank is a total map
  from register index to digest, files are a map from a `Path` (one
  constructor per deterministic file-name pattern of the source) to optional
  contents;
* environmental failures that the source observes through returned errors
  (WriteRename, os.Rename, a missing TPM device, a non-policy unseal fault
  such as an auth failure) are injected through oracle fields of `Env`;
  hardware commands whose failure the claims never hinge on (StartAuthSession,
  PolicyPCR, PolicyGetDigest, FlushContext, tpm2.Seal, NVDefineSpace/NVWrite
  right after a successful undefine) succeed whenever the device is present;
* the sealed blob pair produced by tpm2.Seal is modelled as an executable
  injective encoding of (policy digest, payload), and tpm2.Load /
  UnsealWithSession as its decoding plus the policy comparison the hardware
  performs;
* gob encoding of the PCR snapshot map is modelled by storing the map itself
  as structured file data (`FData.pcrMap`).
-/

namespace EveTpm

/-- Byte strings: one natural number per byte. -/
abbrev Bytes := List Nat

/-- TpmDiskKeyHdl, the NV index holding the legacy (plaintext) disk key. -/
def TpmDiskKeyHdl : Nat := 0x1700000

/-- TpmSealedDiskPrivHdl, the NV index holding the sealed private blob. -/
def TpmSealedDiskPrivHdl : Nat := 0x1800000

/-- TpmSealedDiskPubHdl, the NV index holding the sealed public blob. -/
def TpmSealedDiskPubHdl : Nat := 0x1900000

/-- MaxPasswdLength, the maximum length of a TPM password. -/
def MaxPasswdLength : Nat := 7

/-- vaultKeyLength, the length in bytes of the vault key. -/
def vaultKeyLength : Nat := 32

/-- TPM2 algorithm identifier of SHA256 (tpm2.AlgSHA256 = 0x000B). -/
def AlgSHA256 : Nat := 0x000B

/-- tpm2.PCRSelection: a digest algorithm plus a set of register indices. -/
structure PCRSelection where
  Hash : Nat
  PCRs : List Int
deriving DecidableEq

/-- DiskKeySealingPCRs, the fixed selection used for sealing the disk key. -/
def DiskKeySealingPCRs : PCRSelection :=
  { Hash := AlgSHA256, PCRs := [0, 1, 2, 3, 4, 6, 7, 8, 9, 13, 14] }

/-- File names used by the subsystem.  Each constructor models one
deterministic file-name pattern of the source: `savedPcrs` is
TpmSavedDiskSealingPcrs, `tpmCredentials` is TpmCredentialsFileName,
`sealSuccess i` / `unsealFail i` are TpmEvtLogSavePattern applied to
MeasurementLogSealSuccess / MeasurementLogUnsealFail and device index i,
`sealSuccessBackup i` / `unsealFailBackup i` add the TpmEvtLogCollectPattern
backup suffix, and `measurementLog d` is the kernel-exposed
binary_bios_measurements file of the d-th enumerated TPM. -/
inductive Path where
  | savedPcrs
  | tpmCredentials
  | sealSuccess (i : Nat)
  | unsealFail (i : Nat)
  | sealSuccessBackup (i : Nat)
  | unsealFailBackup (i : Nat)
  | measurementLog (d : Nat)
deriving DecidableEq

/-- File contents: an opaque byte blob, or a gob-encoded PCR snapshot map
(register index to digest), kept structured instead of byte-serialised. -/
inductive FData where
  | blob (b : Bytes)
  | pcrMap (m : List (Int × Bytes))
deriving DecidableEq

/-- The combined hardware / filesystem state, with failure-injection oracles.
`tpmPresent` models whether opening TpmDevicePath succeeds;
`pcrBank256Supported` models the (cached) PCRBankSHA256Enabled probe;
`unsealHwFail` injects a non-policy hardware failure of UnsealWithSession;
`nv` is TPM NV storage; `pcr` is the live SHA256 PCR bank; `rng` is the
TPM RNG stream; `files` is the filesystem; `writeOk` / `renameOk` inject
fileutils.WriteRename / os.Rename failures; `tpmCount` is the number of
TPM devices enumerated under sysfs. -/
structure Env where
  tpmPresent : Bool
  pcrBank256Supported : Bool
  unsealHwFail : Bool
  nv : Nat → Option Bytes
  pcr : Int → Bytes
  rng : Nat → Nat
  files : Path → Option FData
  writeOk : Path → Bool
  renameOk : Path → Path → Bool
  tpmCount : Nat

/-- tpm2.NVUndefineSpace with its error ignored (best-effort removal). -/
def NVUndefineSpace (e : Env) (h : Nat) : Env :=
  { e with nv := fun h2 => if h2 = h then none else e.nv h2 }

/-- tpm2.NVDefineSpace for the exact length of `b` immediately followed by
tpm2.NVWrite of `b`; after the preceding undefine both succeed whenever the
device is present, so they are modelled as one always-successful update. -/
def NVDefineWrite (e : Env) (h : Nat) (b : Bytes) : Env :=
  { e with nv := fun h2 => if h2 = h then some b else e.nv h2 }

/-- tpm2.NVReadEx: fails when the index is undefined. -/
def NVReadEx (e : Env) (h : Nat) : Except Unit Bytes :=
  match e.nv h with
  | some b => .ok b
  | none => .error ()

/-- Write (or overwrite) one file. -/
def putFile (e : Env) (p : Path) (d : FData) : Env :=
  { e with files := fun q => if q = p then some d else e.files q }

/-- Remove one file (os.Remove with its error ignored). -/
def delFile (e : Env) (p : Path) : Env :=
  { e with files := fun q => if q = p then none else e.files q }

/-- fileutils.WriteRename: atomic file write, may fail per the oracle. -/
def WriteRename (e : Env) (p : Path) (d : FData) : Except Unit Unit × Env :=
  if e.writeOk p then (.ok (), putFile e p d) else (.error (), e)

/-- os.Rename: fails when the source is absent or per the oracle; on success
the source is removed and the destination replaced. -/
def osRename (e : Env) (src dst : Path) : Except Unit Unit × Env :=
  match e.files src with
  | none => (.error (), e)
  | some d =>
      if e.renameOk src dst then (.ok (), putFile (delFile e src) dst d)
      else (.error (), e)

/-- The policy digest produced by PolicyPCRSession (StartAuthSession +
PolicyPCR + PolicyGetDigest): a deterministic digest of the algorithm
identifier and the live values of exactly the selected registers. -/
def PolicyPCRSessionDigest (pcrSel : PCRSelection) (pcr : Int → Bytes) : Bytes :=
  pcrSel.Hash :: pcrSel.PCRs.flatMap (fun i => (pcr i).length :: pcr i)

/-- The private blob returned by tpm2.Seal: an injective encoding of the
authorization policy digest and the sealed payload. -/
def sealedPrivBlob (policy key : Bytes) : Bytes :=
  policy.length :: policy ++ key

/-- The public blob returned by tpm2.Seal: carries the authorization policy. -/
def sealedPubBlob (policy : Bytes) : Bytes :=
  policy.length :: policy

/-- tpm2.Load of a (public, private) pair under the storage root key: decodes
the pair back into (authorization policy, payload), failing on blobs that are
not a matching pair produced by the seal primitive. -/
def loadSealedObj (pub priv : Bytes) : Option (Bytes × Bytes) :=
  match pub, priv with
  | n :: pol, m :: rest =>
      if pol.length = n ∧ m = n ∧ rest.take n = pol then
        some (pol, rest.drop n)
      else none
  | _, _ => none

/-- GetRandom: `numBytes` bytes from the TPM RNG stream. -/
def GetRandom (e : Env) (numBytes : Nat) : Except Unit Bytes :=
  if e.tpmPresent then .ok ((List.range numBytes).map (fun n => e.rng n % 256))
  else .error ()

/-- readDiskKey: NVReadEx of the legacy key index. -/
def readDiskKey (e : Env) : Except Unit Bytes :=
  if e.tpmPresent then NVReadEx e TpmDiskKeyHdl else .error ()

/-- writeDiskKey: undefine, redefine and write the legacy key index. -/
def writeDiskKey (e : Env) (key : Bytes) : Except Unit Unit × Env :=
  if e.tpmPresent then
    (.ok (), NVDefineWrite (NVUndefineSpace e TpmDiskKeyHdl) TpmDiskKeyHdl key)
  else (.error (), e)

/-- readDiskKeySealingPCRs: read the live value of every register in the
fixed DiskKeySealingPCRs selection, as an (index, digest) map. -/
def readDiskKeySealingPCRs (e : Env) : Except Unit (List (Int × Bytes)) :=
  if e.tpmPresent then
    .ok (DiskKeySealingPCRs.PCRs.map (fun v => (v, e.pcr v)))
  else .error ()

/-- saveDiskKeySealingPCRs: gob-encode the live fixed-selection PCR map and
WriteRename it to the snapshot file. -/
def saveDiskKeySealingPCRs (e : Env) : Except Unit Unit × Env :=
  if e.tpmPresent then
    match readDiskKeySealingPCRs e with
    | .error _ => (.error (), e)
    | .ok m => WriteRename e Path.savedPcrs (.pcrMap m)
  else (.error (), e)

/-- Errors of findMismatchingPCRs: snapshot file missing, gob decode failure,
live PCR read failure, or a saved index absent from the live read set. -/
inductive DiagErr where
  | openFail
  | decodeFail
  | readPcrsFail
  | missingIndex (i : Int)
deriving DecidableEq

/-- Go map lookup over an association list. -/
def lookupPCR : List (Int × Bytes) → Int → Option Bytes
  | [], _ => none
  | (k, v) :: rest, i => if i = k then some v else lookupPCR rest i

/-- The loop body of findMismatchingPCRs: for every saved entry, fail hard
when its index is absent from the live read set, otherwise accumulate the
index when the live digest differs from the saved one. -/
def pcrMismatchLoop (readPCRs : List (Int × Bytes)) :
    List (Int × Bytes) → List Int → Except DiagErr (List Int)
  | [], acc => .ok acc
  | (i, savedPCR) :: rest, acc =>
      match lookupPCR readPCRs i with
      | none => .error (.missingIndex i)
      | some readPCR =>
          pcrMismatchLoop readPCRs rest
            (if readPCR = savedPCR then acc else acc ++ [i])

/-- findMismatchingPCRs: load the persisted snapshot, read the live values of
the fixed selection, and return the ascending-sorted list of saved indices
whose live digest differs. -/
def findMismatchingPCRs (e : Env) : Except DiagErr (List Int) :=
  match e.files Path.savedPcrs with
  | none => .error .openFail
  | some (.blob _) => .error .decodeFail
  | some (.pcrMap savedPCRs) =>
      match readDiskKeySealingPCRs e with
      | .error _ => .error .readPcrsFail
      | .ok readPCRs =>
          match pcrMismatchLoop readPCRs savedPCRs [] with
          | .error er => .error er
          | .ok mismatch => .ok (List.insertionSort (· ≤ ·) mismatch)

/-- Errors of the measurement-log archival helpers: no TPM enumerated in
sysfs, or `leftOver n` devices could not be handled. -/
inductive ArchErr where
  | noTpmFound
  | leftOver (n : Nat)
deriving DecidableEq

/-- The measurement-log source files that exist, as the list of device
indices whose binary_bios_measurements file is present (the source filters
the enumerated sysfs TPM directories the same way). -/
def getMeasurementLogDevs (e : Env) : List Nat :=
  (List.range e.tpmCount).filter (fun d => (e.files (Path.measurementLog d)).isSome)

/-- The loop body of copyMeasurementLog: read each existing source log and
WriteRename it to the destination path for its enumeration index; individual
failures are skipped, successes decrement the pending counter. -/
def copyMeasurementLogLoop (dst : Nat → Path) :
    List (Nat × Nat) → Env → Nat → Env × Nat
  | [], e, leftToCopy => (e, leftToCopy)
  | (i, d) :: rest, e, leftToCopy =>
      match e.files (Path.measurementLog d) with
      | none => copyMeasurementLogLoop dst rest e leftToCopy
      | some content =>
          match WriteRename e (dst i) content with
          | (.error _, e2) => copyMeasurementLogLoop dst rest e2 leftToCopy
          | (.ok _, e2) => copyMeasurementLogLoop dst rest e2 (leftToCopy - 1)

/-- copyMeasurementLog: copy every enumerated measurement log to the
destination role (`dst` maps an enumeration index to the destination path);
the aggregate fails when any device could not be copied, reporting the
count of failures. -/
def copyMeasurementLog (e : Env) (dst : Nat → Path) : Except ArchErr Unit × Env :=
  if e.tpmCount = 0 then (.error .noTpmFound, e)
  else
    match copyMeasurementLogLoop dst (getMeasurementLogDevs e).enum e
        (getMeasurementLogDevs e).length with
    | (e2, leftToCopy) =>
        if leftToCopy = 0 then (.ok (), e2) else (.error (.leftOver leftToCopy), e2)

/-- One iteration of backupCopiedMeasurementLogs: when both the seal-success
and the unseal-failure copy exist for device index i, rename both to their
backup names; when the second rename fails after the first succeeded, roll
the first rename back best-effort.  The boolean is true exactly when the
index is counted as handled (the loop body was not cut short). -/
def backupStep (e : Env) (i : Nat) : Env × Bool :=
  if (e.files (Path.sealSuccess i)).isSome && (e.files (Path.unsealFail i)).isSome then
    match osRename e (Path.sealSuccess i) (Path.sealSuccessBackup i) with
    | (.error _, e1) => (e1, false)
    | (.ok _, e1) =>
        match osRename e1 (Path.unsealFail i) (Path.unsealFailBackup i) with
        | (.error _, e2) =>
            ((osRename e2 (Path.sealSuccessBackup i) (Path.sealSuccess i)).2, false)
        | (.ok _, e2) => (e2, true)
  else (e, true)

/-- The loop of backupCopiedMeasurementLogs, threading leftToBackup. -/
def backupLoop : List Nat → Env → Nat → Env × Nat
  | [], e, leftToBackup => (e, leftToBackup)
  | i :: rest, e, leftToBackup =>
      match backupStep e i with
      | (e2, handled) =>
          backupLoop rest e2 (if handled then leftToBackup - 1 else leftToBackup)

/-- backupCopiedMeasurementLogs: rotate the previously copied measurement
logs of every enumerated device to their backup names; fails when no TPM is
enumerated or when some device index could not be handled, reporting the
count of unhandled indices. -/
def backupCopiedMeasurementLogs (e : Env) : Except ArchErr Unit × Env :=
  if e.tpmCount = 0 then (.error .noTpmFound, e)
  else
    match backupLoop (List.range e.tpmCount) e e.tpmCount with
    | (e2, leftToBackup) =>
        if leftToBackup = 0 then (.ok (), e2)
        else (.error (.leftOver leftToBackup), e2)

/-- removeCopiedMeasurementLogs: best-effort removal of the current
seal-success and unseal-failure copies of every enumerated device. -/
def removeCopiedMeasurementLogs (e : Env) : Except ArchErr Unit × Env :=
  if e.tpmCount = 0 then (.error .noTpmFound, e)
  else
    (.ok (),
     (List.range e.tpmCount).foldl
       (fun acc i => delFile (delFile acc (Path.sealSuccess i)) (Path.unsealFail i)) e)

/-- Errors of SealDiskKey, one constructor per stage that can fail in the
model: no device, snapshot save failure, and the three archival stages. -/
inductive SealErr where
  | noTpm
  | saveSnapshotFail
  | backupLogsFail (a : ArchErr)
  | removeLogsFail (a : ArchErr)
  | copyLogFail (a : ArchErr)
deriving DecidableEq

/-- Steps 1-4 of SealDiskKey: undefine any stale sealed indices, capture the
policy digest of `pcrSel` over the live registers (PolicyPCRSession followed
by an immediate flush), seal `key` under it, and define and write the two
sealed-blob NV indices. -/
def sealNVStage (key : Bytes) (pcrSel : PCRSelection) (e : Env) : Env :=
  NVDefineWrite
    (NVDefineWrite
      (NVUndefineSpace (NVUndefineSpace e TpmSealedDiskPubHdl) TpmSealedDiskPrivHdl)
      TpmSealedDiskPrivHdl
      (sealedPrivBlob (PolicyPCRSessionDigest pcrSel e.pcr) key))
    TpmSealedDiskPubHdl (sealedPubBlob (PolicyPCRSessionDigest pcrSel e.pcr))

/-- Steps 5-8 of SealDiskKey: overwrite the PCR snapshot, rotate the previous
measurement-log copies to backups, remove the old copies, and save a fresh
seal-success copy.  Any failing step aborts with its error, as in the
source. -/
def sealArchive (e : Env) : Except SealErr Unit × Env :=
  match saveDiskKeySealingPCRs e with
  | (.error _, e4) => (.error .saveSnapshotFail, e4)
  | (.ok _, e4) =>
      match backupCopiedMeasurementLogs e4 with
      | (.error a, e5) => (.error (.backupLogsFail a), e5)
      | (.ok _, e5) =>
          match removeCopiedMeasurementLogs e5 with
          | (.error a, e6) => (.error (.removeLogsFail a), e6)
          | (.ok _, e6) =>
              match copyMeasurementLog e6 Path.sealSuccess with
              | (.error a, e7) => (.error (.copyLogFail a), e7)
              | (.ok _, e7) => (.ok (), e7)

/-- SealDiskKey: the NV sealing stage followed by the snapshot/archival
stage. -/
def SealDiskKey (key : Bytes) (pcrSel : PCRSelection) (e : Env) :
    Except SealErr Unit × Env :=
  if e.tpmPresent then sealArchive (sealNVStage key pcrSel e)
  else (.error .noTpm, e)

/-- isSealedKeyPresent: the sealed private index reads back successfully. -/
def isSealedKeyPresent (e : Env) : Bool :=
  e.tpmPresent && (e.nv TpmSealedDiskPrivHdl).isSome

/-- isLegacyKeyPresent: the legacy key index reads back successfully. -/
def isLegacyKeyPresent (e : Env) : Bool :=
  match readDiskKey e with
  | .ok _ => true
  | .error _ => false

/-- The cause of an UnsealWithSession failure: the policy was not satisfied,
or an injected non-policy hardware fault. -/
inductive HwCause where
  | policyMismatch
  | hwFault
deriving DecidableEq

instance {ε α : Type} [DecidableEq ε] [DecidableEq α] : DecidableEq (Except ε α) :=
  fun x y =>
    match x, y with
    | .ok a, .ok b =>
        if h : a = b then isTrue (by rw [h])
        else isFalse (by intro hc; cases hc; exact h rfl)
    | .error a, .error b =>
        if h : a = b then isTrue (by rw [h])
        else isFalse (by intro hc; cases hc; exact h rfl)
    | .ok _, .error _ => isFalse (by intro hc; cases hc)
    | .error _, .ok _ => isFalse (by intro hc; cases hc)

/-- Errors of UnsealDiskKey.  `unsealFailed` is the composite diagnostic
error built on the unseal-primitive failure path: the underlying hardware
cause, the outcome of the best-effort measurement-log copy (none when the
copy succeeded), and the outcome of the mismatch diagnoser. -/
inductive UnsealErr where
  | noTpm
  | nvReadFail (h : Nat)
  | loadFail
  | unsealFailed (c : HwCause) (evtLogCopy : Option ArchErr)
      (diag : Except DiagErr (List Int))
deriving DecidableEq

/-- UnsealDiskKey: read and load the sealed blobs, open a live policy session
over `pcrSel`, and unseal.  On an unseal-primitive failure, first attempt a
best-effort copy of the current measurement log tagged unseal-failure, then
run the mismatch diagnoser against the persisted snapshot, and return the
single composite error carrying all three outcomes. -/
def UnsealDiskKey (pcrSel : PCRSelection) (e : Env) :
    Except UnsealErr Bytes × Env :=
  if e.tpmPresent then
    match NVReadEx e TpmSealedDiskPrivHdl with
    | .error _ => (.error (.nvReadFail TpmSealedDiskPrivHdl), e)
    | .ok priv =>
        match NVReadEx e TpmSealedDiskPubHdl with
        | .error _ => (.error (.nvReadFail TpmSealedDiskPubHdl), e)
        | .ok pub =>
            match loadSealedObj pub priv with
            | none => (.error .loadFail, e)
            | some obj =>
                if e.unsealHwFail = false ∧
                    PolicyPCRSessionDigest pcrSel e.pcr = obj.1 then
                  (.ok obj.2, e)
                else
                  let c : HwCause :=
                    if e.unsealHwFail then .hwFault else .policyMismatch
                  let cp := copyMeasurementLog e Path.unsealFail
                  let evtLogStat : Option ArchErr :=
                    match cp.1 with
                    | .ok _ => none
                    | .error a => some a
                  (.error (.unsealFailed c evtLogStat (findMismatchingPCRs cp.2)), cp.2)
  else (.error .noTpm, e)

/-- PCRBankSHA256Enabled: the (cached) capability probe for the SHA256 bank,
modelled as a capability bit of the environment. -/
def PCRBankSHA256Enabled (e : Env) : Bool :=
  e.pcrBank256Supported

/-- Errors of the vault-key lifecycle entry points. -/
inductive FetchErr where
  | getRandomFail
  | writeKeyFail
  | readLegacyFail
  | sealFail (s : SealErr)
  | unsealFail (u : UnsealErr)
deriving DecidableEq

/-- FetchVaultKey: the legacy-only path.  Return the legacy key when it is
readable; otherwise generate 32 fresh random bytes from the TPM RNG, persist
them as the legacy NV blob and return them. -/
def FetchVaultKey (e : Env) : Except FetchErr Bytes × Env :=
  match readDiskKey e with
  | .ok key => (.ok key, e)
  | .error _ =>
      match GetRandom e vaultKeyLength with
      | .error _ => (.error .getRandomFail, e)
      | .ok key =>
          match writeDiskKey e key with
          | (.error _, e2) => (.error .writeKeyFail, e2)
          | (.ok _, e2) => (.ok key, e2)

/-- The shared tail of FetchSealedVaultKey: unseal the sealed key with the
fixed selection and return it, wrapping any unseal error. -/
def unsealAndReturn (e : Env) : Except FetchErr Bytes × Env :=
  match UnsealDiskKey DiskKeySealingPCRs e with
  | (.error u, e2) => (.error (.unsealFail u), e2)
  | (.ok k, e2) => (.ok k, e2)

/-- FetchSealedVaultKey: the lifecycle state machine.  Without SHA256-bank
support it behaves exactly as FetchVaultKey.  Otherwise: with neither key
present it seals a fresh random key; with only the legacy key present it
clones the legacy key into a sealed key; in every supported case it finishes
by unsealing and returning the sealed key.  The source computes the two
presence booleans once and runs two mutually exclusive conditional blocks
before the shared final unseal; the exclusive branches are written out here
with the shared final unseal (`unsealAndReturn`) at the end of each. -/
def FetchSealedVaultKey (e : Env) : Except FetchErr Bytes × Env :=
  if PCRBankSHA256Enabled e then
    if !isSealedKeyPresent e && !isLegacyKeyPresent e then
      match GetRandom e vaultKeyLength with
      | .error _ => (.error .getRandomFail, e)
      | .ok key =>
          match SealDiskKey key DiskKeySealingPCRs e with
          | (.error s, e2) => (.error (.sealFail s), e2)
          | (.ok _, e2) => unsealAndReturn e2
    else if !isSealedKeyPresent e && isLegacyKeyPresent e then
      match readDiskKey e with
      | .error _ => (.error .readLegacyFail, e)
      | .ok key =>
          match SealDiskKey key DiskKeySealingPCRs e with
          | (.error s, e2) => (.error (.sealFail s), e2)
          | (.ok _, e2) => unsealAndReturn e2
    else
      unsealAndReturn e
  else
    FetchVaultKey e

/-- SealedKeyType: provenance of the sealed key, for telemetry. -/
inductive SealedKeyType where
  | unknown
  | reused
  | new
  | unprotected
deriving DecidableEq

/-- CompareLegacyandSealedKey: report the relationship between the legacy
and sealed representations by reading both and comparing bytes. -/
def CompareLegacyandSealedKey (e : Env) : SealedKeyType × Env :=
  if isSealedKeyPresent e then
    match readDiskKey e with
    | .error _ => (.new, e)
    | .ok legacyKey =>
        match UnsealDiskKey DiskKeySealingPCRs e with
        | (.error _, e2) => (.unknown, e2)
        | (.ok unsealedKey, e2) =>
            (if legacyKey = unsealedKey then .reused else .new, e2)
  else (.unprotected, e)

/-- ReadOwnerCrdl: read the TPM credential file and truncate its contents to
MaxPasswdLength bytes when longer. -/
def ReadOwnerCrdl (e : Env) : Except Unit Bytes :=
  match e.files Path.tpmCredentials with
  | some (.blob tpmOwnerPasswd) =>
      .ok (if MaxPasswdLength < tpmOwnerPasswd.length then
             tpmOwnerPasswd.take MaxPasswdLength
           else tpmOwnerPasswd)
  | _ => .error ()

/-- All fields of the environment other than the filesystem coincide.  The
archival and snapshot stages only touch files, so they relate their input and
output environments by this predicate. -/
def SameHw (e e2 : Env) : Prop :=
  e2.tpmPresent = e.tpmPresent ∧ e2.pcrBank256Supported = e.pcrBank256Supported ∧
  e2.unsealHwFail = e.unsealHwFail ∧ e2.nv = e.nv ∧ e2.pcr = e.pcr ∧
  e2.rng = e.rng ∧ e2.writeOk = e.writeOk ∧ e2.renameOk = e.renameOk ∧
  e2.tpmCount = e.tpmCount

theorem sameHw_refl (e : Env) : SameHw e e :=
  ⟨rfl, rfl, rfl, rfl, rfl, rfl, rfl, rfl, rfl⟩

theorem sameHw_trans {e1 e2 e3 : Env} (h12 : SameHw e1 e2) (h23 : SameHw e2 e3) :
    SameHw e1 e3 := by
  obtain ⟨a1, b1, c1, d1, f1, g1, i1, j1, k1⟩ := h12
  obtain ⟨a2, b2, c2, d2, f2, g2, i2, j2, k2⟩ := h23
  exact ⟨a2.trans a1, b2.trans b1, c2.trans c1, d2.trans d1, f2.trans f1,
    g2.trans g1, i2.trans i1, j2.trans j1, k2.trans k1⟩

theorem sameHw_putFile (e : Env) (p : Path) (d : FData) : SameHw e (putFile e p d) :=
  ⟨rfl, rfl, rfl, rfl, rfl, rfl, rfl, rfl, rfl⟩

theorem sameHw_delFile (e : Env) (p : Path) : SameHw e (delFile e p) :=
  ⟨rfl, rfl, rfl, rfl, rfl, rfl, rfl, rfl, rfl⟩

theorem sameHw_WriteRename (e : Env) (p : Path) (d : FData) :
    SameHw e (WriteRename e p d).2 := by
  unfold WriteRename
  split
  · exact sameHw_putFile e p d
  · exact sameHw_refl e

theorem sameHw_osRename (e : Env) (src dst : Path) :
    SameHw e (osRename e src dst).2 := by
  unfold osRename
  cases e.files src with
  | none => exact sameHw_refl e
  | some d =>
      simp only
      split
      · exact sameHw_trans (sameHw_delFile e src) (sameHw_putFile (delFile e src) dst d)
      · exact sameHw_refl e

theorem sameHw_backupStep (e : Env) (i : Nat) : SameHw e (backupStep e i).1 := by
  unfold backupStep
  split
  · rcases h1 : osRename e (Path.sealSuccess i) (Path.sealSuccessBackup i) with ⟨r1, e1⟩
    have s1 : SameHw e e1 := by
      have := sameHw_osRename e (Path.sealSuccess i) (Path.sealSuccessBackup i)
      rw [h1] at this
      exact this
    cases r1 with
    | error u => exact s1
    | ok u =>
        dsimp only
        rcases h2 : osRename e1 (Path.unsealFail i) (Path.unsealFailBackup i) with ⟨r2, e2⟩
        have s2 : SameHw e1 e2 := by
          have := sameHw_osRename e1 (Path.unsealFail i) (Path.unsealFailBackup i)
          rw [h2] at this
          exact this
        cases r2 with
        | error u2 =>
            exact sameHw_trans (sameHw_trans s1 s2)
              (sameHw_osRename e2 (Path.sealSuccessBackup i) (Path.sealSuccess i))
        | ok u2 => exact sameHw_trans s1 s2
  · exact sameHw_refl e

theorem sameHw_backupLoop (l : List Nat) (e : Env) (n : Nat) :
    SameHw e (backupLoop l e n).1 := by
  induction l generalizing e n with
  | nil => exact sameHw_refl e
  | cons i rest ih =>
      unfold backupLoop
      rcases hs : backupStep e i with ⟨e2, handled⟩
      have s : SameHw e e2 := by
        have := sameHw_backupStep e i
        rw [hs] at this
        exact this
      exact sameHw_trans s (ih e2 _)

theorem sameHw_copyLoop (dst : Nat → Path) (l : List (Nat × Nat)) (e : Env) (n : Nat) :
    SameHw e (copyMeasurementLogLoop dst l e n).1 := by
  induction l generalizing e n with
  | nil => exact sameHw_refl e
  | cons p rest ih =>
      rcases p with ⟨i, d⟩
      unfold copyMeasurementLogLoop
      cases e.files (Path.measurementLog d) with
      | none => exact ih e n
      | some content =>
          simp only
          rcases hw : WriteRename e (dst i) content with ⟨rw1, e2⟩
          have sw : SameHw e e2 := by
            have := sameHw_WriteRename e (dst i) content
            rw [hw] at this
            exact this
          cases rw1 with
          | error u => exact sameHw_trans sw (ih e2 n)
          | ok u => exact sameHw_trans sw (ih e2 (n - 1))

theorem sameHw_removeFold (l : List Nat) (e : Env) :
    SameHw e (l.foldl
      (fun acc i => delFile (delFile acc (Path.sealSuccess i)) (Path.unsealFail i)) e) := by
  induction l generalizing e with
  | nil => exact sameHw_refl e
  | cons i rest ih =>
      exact sameHw_trans
        (sameHw_trans (sameHw_delFile e (Path.sealSuccess i))
          (sameHw_delFile (delFile e (Path.sealSuccess i)) (Path.unsealFail i)))
        (ih _)

theorem sameHw_saveDiskKeySealingPCRs (e : Env) :
    SameHw e (saveDiskKeySealingPCRs e).2 := by
  unfold saveDiskKeySealingPCRs
  split
  · cases readDiskKeySealingPCRs e with
    | error u => exact sameHw_refl e
    | ok m => exact sameHw_WriteRename e Path.savedPcrs (.pcrMap m)
  · exact sameHw_refl e

theorem sameHw_backupCopiedMeasurementLogs (e : Env) :
    SameHw e (backupCopiedMeasurementLogs e).2 := by
  unfold backupCopiedMeasurementLogs
  split
  · exact sameHw_refl e
  · rcases hl : backupLoop (List.range e.tpmCount) e e.tpmCount with ⟨e2, left⟩
    have s : SameHw e e2 := by
      have := sameHw_backupLoop (List.range e.tpmCount) e e.tpmCount
      rw [hl] at this
      exact this
    dsimp only
    split <;> exact s

theorem sameHw_removeCopiedMeasurementLogs (e : Env) :
    SameHw e (removeCopiedMeasurementLogs e).2 := by
  unfold removeCopiedMeasurementLogs
  split
  · exact sameHw_refl e
  · exact sameHw_removeFold (List.range e.tpmCount) e

theorem sameHw_copyMeasurementLog (e : Env) (dst : Nat → Path) :
    SameHw e (copyMeasurementLog e dst).2 := by
  unfold copyMeasurementLog
  split
  · exact sameHw_refl e
  · rcases hl : copyMeasurementLogLoop dst (getMeasurementLogDevs e).enum e
        (getMeasurementLogDevs e).length with ⟨e2, left⟩
    have s : SameHw e e2 := by
      have := sameHw_copyLoop dst (getMeasurementLogDevs e).enum e
        (getMeasurementLogDevs e).length
      rw [hl] at this
      exact this
    dsimp only
    split <;> exact s

theorem sameHw_sealArchive (e : Env) : SameHw e (sealArchive e).2 := by
  unfold sealArchive
  rcases h4 : saveDiskKeySealingPCRs e with ⟨r4, e4⟩
  have s4 : SameHw e e4 := by
    have := sameHw_saveDiskKeySealingPCRs e
    rw [h4] at this
    exact this
  cases r4 with
  | error u => exact s4
  | ok u =>
      dsimp only
      rcases h5 : backupCopiedMeasurementLogs e4 with ⟨r5, e5⟩
      have s5 : SameHw e4 e5 := by
        have := sameHw_backupCopiedMeasurementLogs e4
        rw [h5] at this
        exact this
      cases r5 with
      | error a => exact sameHw_trans s4 s5
      | ok u5 =>
          dsimp only
          rcases h6 : removeCopiedMeasurementLogs e5 with ⟨r6, e6⟩
          have s6 : SameHw e5 e6 := by
            have := sameHw_removeCopiedMeasurementLogs e5
            rw [h6] at this
            exact this
          cases r6 with
          | error a => exact sameHw_trans (sameHw_trans s4 s5) s6
          | ok u6 =>
              dsimp only
              rcases h7 : copyMeasurementLog e6 Path.sealSuccess with ⟨r7, e7⟩
              have s7 : SameHw e6 e7 := by
                have := sameHw_copyMeasurementLog e6 Path.sealSuccess
                rw [h7] at this
                exact this
              cases r7 with
              | error a => exact sameHw_trans (sameHw_trans (sameHw_trans s4 s5) s6) s7
              | ok u7 => exact sameHw_trans (sameHw_trans (sameHw_trans s4 s5) s6) s7

theorem sealNVStage_nv_priv (key : Bytes) (pcrSel : PCRSelection) (e : Env) :
    (sealNVStage key pcrSel e).nv TpmSealedDiskPrivHdl =
      some (sealedPrivBlob (PolicyPCRSessionDigest pcrSel e.pcr) key) := by
  simp [sealNVStage, NVDefineWrite, NVUndefineSpace, TpmSealedDiskPrivHdl,
    TpmSealedDiskPubHdl]

theorem sealNVStage_nv_pub (key : Bytes) (pcrSel : PCRSelection) (e : Env) :
    (sealNVStage key pcrSel e).nv TpmSealedDiskPubHdl =
      some (sealedPubBlob (PolicyPCRSessionDigest pcrSel e.pcr)) := by
  simp [sealNVStage, NVDefineWrite, NVUndefineSpace, TpmSealedDiskPrivHdl,
    TpmSealedDiskPubHdl]

theorem sealNVStage_nv_other (key : Bytes) (pcrSel : PCRSelection) (e : Env)
    (h2 : Nat) (hp : h2 ≠ TpmSealedDiskPrivHdl) (hq : h2 ≠ TpmSealedDiskPubHdl) :
    (sealNVStage key pcrSel e).nv h2 = e.nv h2 := by
  simp [sealNVStage, NVDefineWrite, NVUndefineSpace, hp, hq]

theorem SealDiskKey_ok_shape {key : Bytes} {pcrSel : PCRSelection} {e eF : Env}
    (h : SealDiskKey key pcrSel e = (.ok (), eF)) :
    e.tpmPresent = true ∧ SameHw (sealNVStage key pcrSel e) eF := by
  unfold SealDiskKey at h
  cases htpm : e.tpmPresent with
  | false =>
      rw [htpm] at h
      simp at h
  | true =>
      rw [htpm] at h
      simp only [if_true] at h
      refine ⟨rfl, ?_⟩
      have := sameHw_sealArchive (sealNVStage key pcrSel e)
      rw [h] at this
      exact this

theorem loadSealedObj_roundtrip (policy key : Bytes) :
    loadSealedObj (sealedPubBlob policy) (sealedPrivBlob policy key) =
      some (policy, key) := by
  simp [loadSealedObj, sealedPubBlob, sealedPrivBlob, List.take_left, List.drop_left]

theorem UnsealDiskKey_ok_of_blobs {pcrSel : PCRSelection} {e : Env}
    {key policy : Bytes}
    (htpm : e.tpmPresent = true)
    (hpriv : e.nv TpmSealedDiskPrivHdl = some (sealedPrivBlob policy key))
    (hpub : e.nv TpmSealedDiskPubHdl = some (sealedPubBlob policy))
    (hw : e.unsealHwFail = false)
    (hpol : PolicyPCRSessionDigest pcrSel e.pcr = policy) :
    UnsealDiskKey pcrSel e = (.ok key, e) := by
  unfold UnsealDiskKey NVReadEx
  rw [htpm, hpriv, hpub]
  simp [loadSealedObj_roundtrip, hw, hpol]

/-- Core of the seal/unseal round trip: after a successful seal, none of the
registers in the selection (indeed no hardware state at all) having changed,
unsealing with the same selection recovers exactly the sealed payload. -/
theorem unseal_after_seal {key : Bytes} {pcrSel : PCRSelection} {e eF : Env}
    (hseal : SealDiskKey key pcrSel e = (.ok (), eF))
    (hw : e.unsealHwFail = false) :
    UnsealDiskKey pcrSel eF = (.ok key, eF) := by
  obtain ⟨htpm, hsame⟩ := SealDiskKey_ok_shape hseal
  obtain ⟨a, b, c, d, f, g, i1, j1, k1⟩ := hsame
  have hpriv : eF.nv TpmSealedDiskPrivHdl =
      some (sealedPrivBlob (PolicyPCRSessionDigest pcrSel e.pcr) key) := by
    rw [d]
    exact sealNVStage_nv_priv key pcrSel e
  have hpub : eF.nv TpmSealedDiskPubHdl =
      some (sealedPubBlob (PolicyPCRSessionDigest pcrSel e.pcr)) := by
    rw [d]
    exact sealNVStage_nv_pub key pcrSel e
  exact UnsealDiskKey_ok_of_blobs (by rw [a]; exact htpm) hpriv hpub
    (by rw [c]; exact hw) (by rw [f]; rfl)

/-- A 32-byte sample key used by the concrete witnesses. -/
def k0 : Bytes := List.replicate 32 1

/-- A nominal sample environment: TPM present, SHA256 bank supported, no
injected hardware fault, empty NV, constant PCR bank, empty filesystem,
all file operations succeeding, one enumerated TPM. -/
def env0 : Env :=
  { tpmPresent := true
    pcrBank256Supported := true
    unsealHwFail := false
    nv := fun _ => none
    pcr := fun _ => [0]
    rng := fun n => n
    files := fun _ => none
    writeOk := fun _ => true
    renameOk := fun _ _ => true
    tpmCount := 1 }

/-- C1: for every 32-byte secret k and the fixed PCR selection
DiskKeySealingPCRs, if SealDiskKey(k, DiskKeySealingPCRs) returns without
error and no PCR register in the selection changes afterwards (here: the
hardware state after the seal is used unchanged, with no injected hardware
fault), then UnsealDiskKey(DiskKeySealingPCRs) returns exactly k. -/
theorem C1_seal_unseal_roundtrip (k : Bytes) (e eF : Env)
    (hlen : k.length = 32)
    (hw : e.unsealHwFail = false)
    (hseal : SealDiskKey k DiskKeySealingPCRs e = (.ok (), eF)) :
    UnsealDiskKey DiskKeySealingPCRs eF = (.ok k, eF) :=
  unseal_after_seal hseal hw

/-- Witness for C1: a concrete environment in which the seal succeeds and the
unseal then recovers the sealed key. -/
theorem C1_seal_unseal_roundtrip_witness :
    UnsealDiskKey DiskKeySealingPCRs (SealDiskKey k0 DiskKeySealingPCRs env0).2 =
      (.ok k0, (SealDiskKey k0 DiskKeySealingPCRs env0).2) :=
  C1_seal_unseal_roundtrip k0 env0 (SealDiskKey k0 DiskKeySealingPCRs env0).2
    (by decide) rfl (by rfl)

theorem files_putFile_ne (e : Env) (p : Path) (d : FData) (q : Path) (h : q ≠ p) :
    (putFile e p d).files q = e.files q := by
  simp [putFile, h]

theorem files_delFile_ne (e : Env) (p q : Path) (h : q ≠ p) :
    (delFile e p).files q = e.files q := by
  simp [delFile, h]

theorem files_WriteRename_ne (e : Env) (p : Path) (d : FData) (q : Path) (h : q ≠ p) :
    ((WriteRename e p d).2).files q = e.files q := by
  unfold WriteRename
  split
  · exact files_putFile_ne e p d q h
  · rfl

theorem files_osRename_ne (e : Env) (src dst q : Path) (h1 : q ≠ src) (h2 : q ≠ dst) :
    ((osRename e src dst).2).files q = e.files q := by
  unfold osRename
  cases e.files src with
  | none => rfl
  | some d =>
      simp only
      split
      · rw [files_putFile_ne _ _ _ _ h2, files_delFile_ne _ _ _ h1]
      · rfl

theorem backupStep_savedPcrs (e : Env) (i : Nat) :
    ((backupStep e i).1).files Path.savedPcrs = e.files Path.savedPcrs := by
  unfold backupStep
  split
  · rcases h1 : osRename e (Path.sealSuccess i) (Path.sealSuccessBackup i) with ⟨r1, e1⟩
    have s1 : e1.files Path.savedPcrs = e.files Path.savedPcrs := by
      have := files_osRename_ne e (Path.sealSuccess i) (Path.sealSuccessBackup i)
        Path.savedPcrs (by intro hh; cases hh) (by intro hh; cases hh)
      rw [h1] at this
      exact this
    cases r1 with
    | error u => exact s1
    | ok u =>
        dsimp only
        rcases h2 : osRename e1 (Path.unsealFail i) (Path.unsealFailBackup i) with ⟨r2, e2⟩
        have s2 : e2.files Path.savedPcrs = e1.files Path.savedPcrs := by
          have := files_osRename_ne e1 (Path.unsealFail i) (Path.unsealFailBackup i)
            Path.savedPcrs (by intro hh; cases hh) (by intro hh; cases hh)
          rw [h2] at this
          exact this
        cases r2 with
        | error u2 =>
            have s3 := files_osRename_ne e2 (Path.sealSuccessBackup i) (Path.sealSuccess i)
              Path.savedPcrs (by intro hh; cases hh) (by intro hh; cases hh)
            rw [s3, s2, s1]
        | ok u2 => rw [s2, s1]
  · rfl

theorem backupLoop_savedPcrs (l : List Nat) (e : Env) (n : Nat) :
    ((backupLoop l e n).1).files Path.savedPcrs = e.files Path.savedPcrs := by
  induction l generalizing e n with
  | nil => rfl
  | cons i rest ih =>
      unfold backupLoop
      rcases hs : backupStep e i with ⟨e2, handled⟩
      have s : e2.files Path.savedPcrs = e.files Path.savedPcrs := by
        have := backupStep_savedPcrs e i
        rw [hs] at this
        exact this
      rw [ih e2 _, s]

theorem removeFold_savedPcrs (l : List Nat) (e : Env) :
    ((l.foldl
      (fun acc i => delFile (delFile acc (Path.sealSuccess i)) (Path.unsealFail i)) e)).files
        Path.savedPcrs = e.files Path.savedPcrs := by
  induction l generalizing e with
  | nil => rfl
  | cons i rest ih =>
      rw [List.foldl_cons, ih,
        files_delFile_ne _ _ _ (by intro hh; cases hh),
        files_delFile_ne _ _ _ (by intro hh; cases hh)]

theorem copyLoop_savedPcrs (dst : Nat → Path) (hdst : ∀ i, Path.savedPcrs ≠ dst i)
    (l : List (Nat × Nat)) (e : Env) (n : Nat) :
    ((copyMeasurementLogLoop dst l e n).1).files Path.savedPcrs =
      e.files Path.savedPcrs := by
  induction l generalizing e n with
  | nil => rfl
  | cons p rest ih =>
      rcases p with ⟨i, d⟩
      unfold copyMeasurementLogLoop
      cases e.files (Path.measurementLog d) with
      | none => exact ih e n
      | some content =>
          simp only
          rcases hw : WriteRename e (dst i) content with ⟨rw1, e2⟩
          have sw : e2.files Path.savedPcrs = e.files Path.savedPcrs := by
            have := files_WriteRename_ne e (dst i) content Path.savedPcrs (hdst i)
            rw [hw] at this
            exact this
          cases rw1 with
          | error u => rw [ih e2 n, sw]
          | ok u => rw [ih e2 (n - 1), sw]

theorem backupCopied_savedPcrs (e : Env) :
    ((backupCopiedMeasurementLogs e).2).files Path.savedPcrs =
      e.files Path.savedPcrs := by
  unfold backupCopiedMeasurementLogs
  split
  · rfl
  · rcases hl : backupLoop (List.range e.tpmCount) e e.tpmCount with ⟨e2, left⟩
    have s : e2.files Path.savedPcrs = e.files Path.savedPcrs := by
      have := backupLoop_savedPcrs (List.range e.tpmCount) e e.tpmCount
      rw [hl] at this
      exact this
    dsimp only
    split <;> exact s

theorem removeCopied_savedPcrs (e : Env) :
    ((removeCopiedMeasurementLogs e).2).files Path.savedPcrs =
      e.files Path.savedPcrs := by
  unfold removeCopiedMeasurementLogs
  split
  · rfl
  · exact removeFold_savedPcrs (List.range e.tpmCount) e

theorem copyMeasurementLog_savedPcrs (e : Env) (dst : Nat → Path)
    (hdst : ∀ i, Path.savedPcrs ≠ dst i) :
    ((copyMeasurementLog e dst).2).files Path.savedPcrs = e.files Path.savedPcrs := by
  unfold copyMeasurementLog
  split
  · rfl
  · rcases hl : copyMeasurementLogLoop dst (getMeasurementLogDevs e).enum e
        (getMeasurementLogDevs e).length with ⟨e2, left⟩
    have s : e2.files Path.savedPcrs = e.files Path.savedPcrs := by
      have := copyLoop_savedPcrs dst hdst (getMeasurementLogDevs e).enum e
        (getMeasurementLogDevs e).length
      rw [hl] at this
      exact this
    dsimp only
    split <;> exact s

theorem saveDiskKeySealingPCRs_ok_files {e eF : Env} {r : Unit}
    (h : saveDiskKeySealingPCRs e = (.ok r, eF)) :
    eF.files Path.savedPcrs =
      some (.pcrMap (DiskKeySealingPCRs.PCRs.map (fun v => (v, e.pcr v)))) := by
  unfold saveDiskKeySealingPCRs readDiskKeySealingPCRs at h
  cases htpm : e.tpmPresent with
  | false =>
      rw [htpm] at h
      simp at h
  | true =>
      rw [htpm] at h
      simp only [if_true] at h
      unfold WriteRename at h
      split at h
      · have heF : eF = putFile e Path.savedPcrs
            (.pcrMap (DiskKeySealingPCRs.PCRs.map (fun v => (v, e.pcr v)))) := by
          have := congrArg Prod.snd h
          exact this.symm
        rw [heF]
        simp [putFile]
      · simp at h

/-- After any outcome of the archival stage other than a snapshot-save
failure, the hardware state is untouched and the PCR snapshot on disk holds
the live values of the fixed selection at entry. -/
theorem sealArchive_post_save_facts {eS eF : Env} {r : Except SealErr Unit}
    (h : sealArchive eS = (r, eF)) (hne : r ≠ .error .saveSnapshotFail) :
    SameHw eS eF ∧
    eF.files Path.savedPcrs =
      some (.pcrMap (DiskKeySealingPCRs.PCRs.map (fun v => (v, eS.pcr v)))) := by
  unfold sealArchive at h
  rcases h4 : saveDiskKeySealingPCRs eS with ⟨r4, e4⟩
  rw [h4] at h
  have s4 : SameHw eS e4 := by
    have := sameHw_saveDiskKeySealingPCRs eS
    rw [h4] at this
    exact this
  cases r4 with
  | error u =>
      simp only [Prod.mk.injEq] at h
      rw [← h.1] at hne
      exact absurd rfl hne
  | ok u =>
      have hsv := saveDiskKeySealingPCRs_ok_files h4
      dsimp only at h
      rcases h5 : backupCopiedMeasurementLogs e4 with ⟨r5, e5⟩
      rw [h5] at h
      have s5 : SameHw e4 e5 := by
        have := sameHw_backupCopiedMeasurementLogs e4
        rw [h5] at this
        exact this
      have f5 : e5.files Path.savedPcrs = e4.files Path.savedPcrs := by
        have := backupCopied_savedPcrs e4
        rw [h5] at this
        exact this
      cases r5 with
      | error a =>
          simp only [Prod.mk.injEq] at h
          rw [← h.2]
          exact ⟨sameHw_trans s4 s5, by rw [f5, hsv]⟩
      | ok u5 =>
          dsimp only at h
          rcases h6 : removeCopiedMeasurementLogs e5 with ⟨r6, e6⟩
          rw [h6] at h
          have s6 : SameHw e5 e6 := by
            have := sameHw_removeCopiedMeasurementLogs e5
            rw [h6] at this
            exact this
          have f6 : e6.files Path.savedPcrs = e5.files Path.savedPcrs := by
            have := removeCopied_savedPcrs e5
            rw [h6] at this
            exact this
          cases r6 with
          | error a =>
              simp only [Prod.mk.injEq] at h
              rw [← h.2]
              exact ⟨sameHw_trans (sameHw_trans s4 s5) s6, by rw [f6, f5, hsv]⟩
          | ok u6 =>
              dsimp only at h
              rcases h7 : copyMeasurementLog e6 Path.sealSuccess with ⟨r7, e7⟩
              rw [h7] at h
              have s7 : SameHw e6 e7 := by
                have := sameHw_copyMeasurementLog e6 Path.sealSuccess
                rw [h7] at this
                exact this
              have f7 : e7.files Path.savedPcrs = e6.files Path.savedPcrs := by
                have := copyMeasurementLog_savedPcrs e6 Path.sealSuccess
                  (fun i => by intro hh; cases hh)
                rw [h7] at this
                exact this
              cases r7 with
              | error a =>
                  simp only [Prod.mk.injEq] at h
                  rw [← h.2]
                  exact ⟨sameHw_trans (sameHw_trans (sameHw_trans s4 s5) s6) s7,
                    by rw [f7, f6, f5, hsv]⟩
              | ok u7 =>
                  simp only [Prod.mk.injEq] at h
                  rw [← h.2]
                  exact ⟨sameHw_trans (sameHw_trans (sameHw_trans s4 s5) s6) s7,
                    by rw [f7, f6, f5, hsv]⟩

/-- An environment identical to env0 except that no TPM is enumerated in
sysfs, so every measurement-log archival operation fails. -/
def envC2 : Env :=
  { env0 with tpmCount := 0 }

/-- C2 counterexample: with archival failing (no TPM enumerated in sysfs),
SealDiskKey does return an error even though the secret has been sealed and
both sealed blobs written to NV, refuting the claim that archival failure
never causes SealDiskKey to return an error at that point. -/
theorem C2_counterexample :
    (SealDiskKey k0 DiskKeySealingPCRs envC2).1 =
      .error (.backupLogsFail .noTpmFound) ∧
    ((SealDiskKey k0 DiskKeySealingPCRs envC2).2.nv TpmSealedDiskPrivHdl).isSome = true ∧
    ((SealDiskKey k0 DiskKeySealingPCRs envC2).2.nv TpmSealedDiskPubHdl).isSome = true := by
  refine ⟨by decide, by decide, by decide⟩

/-- C2 amended: when SealDiskKey fails in one of the three archival stages
(backup rotation, old-copy removal, or seal-success copy), it does return an
error naming that stage; however by that point the secret has already been
sealed and both sealed blobs written to NV, and the fresh PCR snapshot has
been persisted — the seal itself is not undone, only reported as failed. -/
theorem C2_archival_error_after_nv_write (k : Bytes) (pcrSel : PCRSelection)
    (e eF : Env) (r : Except SealErr Unit)
    (hrun : SealDiskKey k pcrSel e = (r, eF))
    (harch : (∃ a, r = .error (.backupLogsFail a)) ∨
             (∃ a, r = .error (.removeLogsFail a)) ∨
             (∃ a, r = .error (.copyLogFail a))) :
    eF.nv TpmSealedDiskPrivHdl =
      some (sealedPrivBlob (PolicyPCRSessionDigest pcrSel e.pcr) k) ∧
    eF.nv TpmSealedDiskPubHdl =
      some (sealedPubBlob (PolicyPCRSessionDigest pcrSel e.pcr)) ∧
    eF.files Path.savedPcrs =
      some (.pcrMap (DiskKeySealingPCRs.PCRs.map (fun v => (v, e.pcr v)))) := by
  have hne : r ≠ .error .saveSnapshotFail := by
    rcases harch with ⟨a, ha⟩ | ⟨a, ha⟩ | ⟨a, ha⟩ <;> rw [ha] <;> intro hh <;>
      simp at hh
  have hnotpm : r ≠ .error .noTpm := by
    rcases harch with ⟨a, ha⟩ | ⟨a, ha⟩ | ⟨a, ha⟩ <;> rw [ha] <;> intro hh <;>
      simp at hh
  unfold SealDiskKey at hrun
  cases htpm : e.tpmPresent with
  | false =>
      rw [htpm] at hrun
      simp only [Bool.false_eq_true, if_false, Prod.mk.injEq] at hrun
      exact absurd hrun.1.symm hnotpm
  | true =>
      rw [htpm] at hrun
      simp only [if_true] at hrun
      obtain ⟨hsame, hsnap⟩ := sealArchive_post_save_facts hrun hne
      obtain ⟨a, b, c, d, f, g, i1, j1, k1⟩ := hsame
      refine ⟨?_, ?_, ?_⟩
      · rw [d]
        exact sealNVStage_nv_priv k pcrSel e
      · rw [d]
        exact sealNVStage_nv_pub k pcrSel e
      · exact hsnap

/-- Witness for the C2 amended theorem at the concrete counterexample
environment. -/
theorem C2_archival_error_after_nv_write_witness :
    (SealDiskKey k0 DiskKeySealingPCRs envC2).2.nv TpmSealedDiskPrivHdl =
      some (sealedPrivBlob (PolicyPCRSessionDigest DiskKeySealingPCRs envC2.pcr) k0) :=
  (C2_archival_error_after_nv_write k0 DiskKeySealingPCRs envC2
    (SealDiskKey k0 DiskKeySealingPCRs envC2).2
    (SealDiskKey k0 DiskKeySealingPCRs envC2).1
    (by rfl) (Or.inl ⟨.noTpmFound, by decide⟩)).1

/-- A PCR selection different from the fixed DiskKeySealingPCRs, used to
refute C5 as stated. -/
def selC5 : PCRSelection :=
  { Hash := AlgSHA256, PCRs := [5] }

/-- C5 counterexample: sealing under the selection selC5 (register 5 only)
succeeds, yet the persisted snapshot does not hold the register values of
selC5 — it holds those of the fixed DiskKeySealingPCRs selection instead,
refuting the claim that the snapshot records exactly the registers of the
selection the secret was sealed under. -/
theorem C5_counterexample :
    (SealDiskKey k0 selC5 env0).1 = .ok () ∧
    (SealDiskKey k0 selC5 env0).2.files Path.savedPcrs ≠
      some (.pcrMap (selC5.PCRs.map (fun v => (v, env0.pcr v)))) := by
  refine ⟨by decide, by decide⟩

/-- C5 amended: a successful SealDiskKey overwrites the persisted PCR
snapshot with the current register values of the registers of the fixed
DiskKeySealingPCRs selection, whatever selection `pcrSel` the secret was
sealed under; the two coincide exactly when `pcrSel` is the fixed
selection (as at every call site in the repository). -/
theorem C5_snapshot_records_fixed_selection (k : Bytes) (pcrSel : PCRSelection)
    (e eF : Env)
    (hseal : SealDiskKey k pcrSel e = (.ok (), eF)) :
    eF.files Path.savedPcrs =
      some (.pcrMap (DiskKeySealingPCRs.PCRs.map (fun v => (v, e.pcr v)))) := by
  unfold SealDiskKey at hseal
  cases htpm : e.tpmPresent with
  | false =>
      rw [htpm] at hseal
      simp at hseal
  | true =>
      rw [htpm] at hseal
      simp only [if_true] at hseal
      exact (sealArchive_post_save_facts hseal (by intro hh; simp at hh)).2

/-- Witness for the C5 amended theorem at the counterexample inputs. -/
theorem C5_snapshot_records_fixed_selection_witness :
    (SealDiskKey k0 selC5 env0).2.files Path.savedPcrs =
      some (.pcrMap (DiskKeySealingPCRs.PCRs.map (fun v => (v, env0.pcr v)))) :=
  C5_snapshot_records_fixed_selection k0 selC5 env0
    (SealDiskKey k0 selC5 env0).2 (by rfl)

theorem findMismatchingPCRs_sorted (e : Env) (l : List Int)
    (h : findMismatchingPCRs e = .ok l) : List.Sorted (· ≤ ·) l := by
  unfold findMismatchingPCRs at h
  cases hf : e.files Path.savedPcrs with
  | none =>
      rw [hf] at h
      simp at h
  | some dta =>
      rw [hf] at h
      cases dta with
      | blob b => simp at h
      | pcrMap savedPCRs =>
          dsimp only at h
          cases hr : readDiskKeySealingPCRs e with
          | error u =>
              rw [hr] at h
              simp at h
          | ok readPCRs =>
              rw [hr] at h
              dsimp only at h
              cases hm : pcrMismatchLoop readPCRs savedPCRs [] with
              | error er =>
                  rw [hm] at h
                  simp at h
              | ok mismatch =>
                  rw [hm] at h
                  simp only [Except.ok.injEq] at h
                  rw [← h]
                  exact List.sorted_insertionSort (· ≤ ·) mismatch

/-- C3: when the unseal primitive fails inside UnsealDiskKey (the policy is
not satisfied, or an injected non-policy hardware fault), the function first
attempts a best-effort copy of the current measurement log tagged
unseal-failure, then runs the mismatch diagnoser against the persisted
snapshot on the resulting state, and returns a single composite error
carrying the hardware cause, the copy outcome (none when the copy
succeeded), and the diagnoser outcome (an ascending-sorted mismatch list
when the diagnoser ran, or its own failure); being an error, no secret
bytes are returned. -/
theorem C3_unseal_failure_diagnostics (pcrSel : PCRSelection) (e : Env)
    (priv pub authPolicy payload : Bytes)
    (htpm : e.tpmPresent = true)
    (hpriv : e.nv TpmSealedDiskPrivHdl = some priv)
    (hpub : e.nv TpmSealedDiskPubHdl = some pub)
    (hload : loadSealedObj pub priv = some (authPolicy, payload))
    (hfail : ¬ (e.unsealHwFail = false ∧
      PolicyPCRSessionDigest pcrSel e.pcr = authPolicy)) :
    UnsealDiskKey pcrSel e =
      (.error (.unsealFailed
        (if e.unsealHwFail then .hwFault else .policyMismatch)
        (match (copyMeasurementLog e Path.unsealFail).1 with
         | .ok _ => none
         | .error a => some a)
        (findMismatchingPCRs (copyMeasurementLog e Path.unsealFail).2)),
       (copyMeasurementLog e Path.unsealFail).2) ∧
    (∀ l, findMismatchingPCRs (copyMeasurementLog e Path.unsealFail).2 = .ok l →
      List.Sorted (· ≤ ·) l) := by
  constructor
  · unfold UnsealDiskKey NVReadEx
    rw [htpm, hpriv, hpub]
    simp only [if_true]
    rw [hload]
    dsimp only
    rw [if_neg hfail]
  · intro l hl
    exact findMismatchingPCRs_sorted _ l hl

/-- An environment holding a sealed-blob pair whose authorization policy does
not match the live registers: the unseal primitive fails on it. -/
def envC3 : Env :=
  { env0 with
    nv := fun h =>
      if h = TpmSealedDiskPrivHdl then some (sealedPrivBlob [9] k0)
      else if h = TpmSealedDiskPubHdl then some (sealedPubBlob [9])
      else none }

/-- Witness for C3 at a concrete mismatched environment. -/
theorem C3_unseal_failure_diagnostics_witness :
    UnsealDiskKey DiskKeySealingPCRs envC3 =
      (.error (.unsealFailed
        (if envC3.unsealHwFail then .hwFault else .policyMismatch)
        (match (copyMeasurementLog envC3 Path.unsealFail).1 with
         | .ok _ => none
         | .error a => some a)
        (findMismatchingPCRs (copyMeasurementLog envC3 Path.unsealFail).2)),
       (copyMeasurementLog envC3 Path.unsealFail).2) :=
  (C3_unseal_failure_diagnostics DiskKeySealingPCRs envC3
    (sealedPrivBlob [9] k0) (sealedPubBlob [9]) [9] k0
    rfl rfl rfl (loadSealedObj_roundtrip [9] k0) (by decide)).1

theorem lookupPCR_map (f : Int → Bytes) (l : List Int) (i : Int) :
    lookupPCR (l.map (fun v => (v, f v))) i =
      if i ∈ l then some (f i) else none := by
  induction l with
  | nil => rfl
  | cons v rest ih =>
      by_cases h : i = v
      · subst h
        simp [lookupPCR]
      · simp [lookupPCR, h, ih]

/-- The list of saved indices whose live reading differs, in iteration
order, ignoring entries whose index cannot be read (the loop aborts on those
before collecting anything further). -/
def mismList (readPCRs : List (Int × Bytes)) : List (Int × Bytes) → List Int
  | [] => []
  | (i, s) :: rest =>
      match lookupPCR readPCRs i with
      | none => mismList readPCRs rest
      | some r =>
          if r = s then mismList readPCRs rest else i :: mismList readPCRs rest

theorem pcrMismatchLoop_ok (read : List (Int × Bytes)) (sv : List (Int × Bytes)) :
    ∀ (acc : List Int), (∀ p ∈ sv, (lookupPCR read p.1).isSome = true) →
    pcrMismatchLoop read sv acc = .ok (acc ++ mismList read sv) := by
  induction sv with
  | nil =>
      intro acc hall
      simp [pcrMismatchLoop, mismList]
  | cons p rest ih =>
      intro acc hall
      rcases p with ⟨i, s⟩
      have hi := hall (i, s) (by simp)
      cases hl : lookupPCR read i with
      | none =>
          rw [hl] at hi
          simp at hi
      | some r =>
          unfold pcrMismatchLoop mismList
          rw [hl]
          dsimp only
          have hrest : ∀ p ∈ rest, (lookupPCR read p.1).isSome = true :=
            fun q hq => hall q (by simp [hq])
          by_cases hr : r = s
          · simp only [if_pos hr]
            exact ih acc hrest
          · simp only [if_neg hr]
            rw [ih (acc ++ [i]) hrest, List.append_assoc]
            rfl

theorem pcrMismatchLoop_err (read : List (Int × Bytes)) (sv : List (Int × Bytes)) :
    ∀ (acc : List Int), (∃ p ∈ sv, lookupPCR read p.1 = none) →
    ∃ i, pcrMismatchLoop read sv acc = .error (.missingIndex i) ∧
      lookupPCR read i = none ∧ i ∈ sv.map Prod.fst := by
  induction sv with
  | nil =>
      intro acc hex
      simp at hex
  | cons p rest ih =>
      intro acc hex
      rcases p with ⟨i, s⟩
      cases hl : lookupPCR read i with
      | none =>
          refine ⟨i, ?_, hl, by simp⟩
          unfold pcrMismatchLoop
          rw [hl]
      | some r =>
          have hex2 : ∃ p ∈ rest, lookupPCR read p.1 = none := by
            rcases hex with ⟨q, hq, hqn⟩
            rcases List.mem_cons.mp hq with heq | hmem
            · rw [heq] at hqn
              dsimp only at hqn
              rw [hl] at hqn
              cases hqn
            · exact ⟨q, hmem, hqn⟩
          obtain ⟨j, hj1, hj2, hj3⟩ :=
            ih (if r = s then acc else acc ++ [i]) hex2
          refine ⟨j, ?_, hj2, by simp [hj3]⟩
          unfold pcrMismatchLoop
          rw [hl]
          dsimp only
          by_cases hr : r = s
          · rw [if_pos hr] at hj1 ⊢
            exact hj1
          · rw [if_neg hr] at hj1 ⊢
            exact hj1

theorem mem_mismList (read : List (Int × Bytes)) (sv : List (Int × Bytes))
    (hall : ∀ p ∈ sv, (lookupPCR read p.1).isSome = true) (i : Int) :
    i ∈ mismList read sv ↔ ∃ d, (i, d) ∈ sv ∧ lookupPCR read i ≠ some d := by
  induction sv with
  | nil => simp [mismList]
  | cons p rest ih =>
      rcases p with ⟨j, s⟩
      have hj := hall (j, s) (by simp)
      cases hl : lookupPCR read j with
      | none =>
          rw [hl] at hj
          simp at hj
      | some r =>
          unfold mismList
          rw [hl]
          dsimp only
          have ih2 := ih (fun q hq => hall q (by simp [hq]))
          by_cases hr : r = s
          · rw [if_pos hr, ih2]
            constructor
            · rintro ⟨d, hd, hne⟩
              exact ⟨d, by simp [hd], hne⟩
            · rintro ⟨d, hd, hne⟩
              rcases List.mem_cons.mp hd with heq | hmem
              · injection heq with hij hds
                subst hij
                subst hds
                exact absurd (by rw [hl, hr]) hne
              · exact ⟨d, hmem, hne⟩
          · rw [if_neg hr]
            constructor
            · intro hmem
              rcases List.mem_cons.mp hmem with heq | hmem2
              · subst heq
                refine ⟨s, by simp, ?_⟩
                rw [hl]
                intro hc
                injection hc with hc2
                exact hr hc2
              · obtain ⟨d, hd, hne⟩ := ih2.mp hmem2
                exact ⟨d, by simp [hd], hne⟩
            · rintro ⟨d, hd, hne⟩
              rcases List.mem_cons.mp hd with heq | hmem2
              · injection heq with hij hds
                subst hij
                exact List.mem_cons_self _ _
              · exact List.mem_cons_of_mem j (ih2.mpr ⟨d, hmem2, hne⟩)

theorem mismList_sublist (read : List (Int × Bytes)) (sv : List (Int × Bytes)) :
    (mismList read sv).Sublist (sv.map Prod.fst) := by
  induction sv with
  | nil => simp [mismList]
  | cons p rest ih =>
      rcases p with ⟨i, s⟩
      unfold mismList
      cases lookupPCR read i with
      | none => exact ih.cons i
      | some r =>
          dsimp only
          by_cases hr : r = s
          · rw [if_pos hr]
            exact ih.cons i
          · rw [if_neg hr]
            exact ih.cons₂ i

/-- C4: for every persisted snapshot mapping, findMismatchingPCRs fails
(with a missing-index error, returning no list) whenever some saved index is
absent from the live read set (the fixed DiskKeySealingPCRs registers), and
otherwise returns the ascending-sorted duplicate-free list of exactly those
saved indices whose live digest differs byte-for-byte from the saved digest;
when every saved index matches its live value it returns the empty list. -/
theorem C4_findMismatchingPCRs_spec (e : Env) (sv : List (Int × Bytes))
    (hfile : e.files Path.savedPcrs = some (.pcrMap sv))
    (htpm : e.tpmPresent = true)
    (hnodup : (sv.map Prod.fst).Nodup) :
    ((∃ p ∈ sv, p.1 ∉ DiskKeySealingPCRs.PCRs) →
      ∃ i, findMismatchingPCRs e = .error (.missingIndex i)) ∧
    ((∀ p ∈ sv, p.1 ∈ DiskKeySealingPCRs.PCRs) →
      ∃ l, findMismatchingPCRs e = .ok l ∧ List.Sorted (· ≤ ·) l ∧ l.Nodup ∧
        (∀ i, i ∈ l ↔ ∃ d, (i, d) ∈ sv ∧ e.pcr i ≠ d)) ∧
    ((∀ p ∈ sv, p.1 ∈ DiskKeySealingPCRs.PCRs ∧ e.pcr p.1 = p.2) →
      findMismatchingPCRs e = .ok []) := by
  have hread : readDiskKeySealingPCRs e =
      .ok (DiskKeySealingPCRs.PCRs.map (fun v => (v, e.pcr v))) := by
    unfold readDiskKeySealingPCRs
    rw [htpm]
    rfl
  have hopen : ∀ r, pcrMismatchLoop
        (DiskKeySealingPCRs.PCRs.map (fun v => (v, e.pcr v))) sv [] = r →
      findMismatchingPCRs e = (match r with
        | .error er => .error er
        | .ok mismatch => .ok (List.insertionSort (· ≤ ·) mismatch)) := by
    intro r hr
    unfold findMismatchingPCRs
    rw [hfile]
    dsimp only
    rw [hread]
    dsimp only
    rw [hr]
  refine ⟨?_, ?_, ?_⟩
  · intro hex
    have hex2 : ∃ p ∈ sv, lookupPCR
        (DiskKeySealingPCRs.PCRs.map (fun v => (v, e.pcr v))) p.1 = none := by
      rcases hex with ⟨p, hp, hnm⟩
      exact ⟨p, hp, by rw [lookupPCR_map, if_neg hnm]⟩
    obtain ⟨i, hi1, _, _⟩ := pcrMismatchLoop_err _ sv [] hex2
    exact ⟨i, hopen _ hi1⟩
  · intro hmem
    have hall : ∀ p ∈ sv, (lookupPCR
        (DiskKeySealingPCRs.PCRs.map (fun v => (v, e.pcr v))) p.1).isSome = true := by
      intro p hp
      rw [lookupPCR_map, if_pos (hmem p hp)]
      rfl
    have hloop := pcrMismatchLoop_ok _ sv [] hall
    refine ⟨List.insertionSort (· ≤ ·)
      (mismList (DiskKeySealingPCRs.PCRs.map (fun v => (v, e.pcr v))) sv),
      hopen _ hloop, List.sorted_insertionSort _ _, ?_, ?_⟩
    · exact ((List.perm_insertionSort (· ≤ ·)
        (mismList (DiskKeySealingPCRs.PCRs.map (fun v => (v, e.pcr v))) sv)).nodup_iff).mpr
        ((mismList_sublist _ sv).nodup hnodup)
    · intro i
      rw [(List.perm_insertionSort (· ≤ ·) _).mem_iff, mem_mismList _ sv hall i]
      constructor
      · rintro ⟨d, hd, hne⟩
        refine ⟨d, hd, ?_⟩
        rw [lookupPCR_map, if_pos (hmem (i, d) hd)] at hne
        intro hc
        exact hne (by rw [hc])
      · rintro ⟨d, hd, hne⟩
        refine ⟨d, hd, ?_⟩
        rw [lookupPCR_map, if_pos (hmem (i, d) hd)]
        intro hc
        exact hne (Option.some.injEq .. ▸ hc)
  · intro hmatch
    have hall : ∀ p ∈ sv, (lookupPCR
        (DiskKeySealingPCRs.PCRs.map (fun v => (v, e.pcr v))) p.1).isSome = true := by
      intro p hp
      rw [lookupPCR_map, if_pos (hmatch p hp).1]
      rfl
    have hloop := pcrMismatchLoop_ok _ sv [] hall
    have hnil : mismList
        (DiskKeySealingPCRs.PCRs.map (fun v => (v, e.pcr v))) sv = [] := by
      rw [List.eq_nil_iff_forall_not_mem]
      intro i hi
      obtain ⟨d, hd, hne⟩ := (mem_mismList _ sv hall i).mp hi
      apply hne
      rw [lookupPCR_map, if_pos (hmatch (i, d) hd).1, (hmatch (i, d) hd).2]
    rw [hnil] at hloop
    exact hopen _ hloop

/-- An environment with a persisted snapshot whose every entry matches the
live registers. -/
def envC4 : Env :=
  { env0 with
    files := fun p =>
      if p = Path.savedPcrs then some (.pcrMap [(0, [0]), (1, [0])]) else none }

/-- Witness for C4: on a snapshot whose entries all match the live values,
the diagnoser returns the empty mismatch list. -/
theorem C4_findMismatchingPCRs_spec_witness :
    findMismatchingPCRs envC4 = .ok [] :=
  (C4_findMismatchingPCRs_spec envC4 [(0, [0]), (1, [0])] rfl rfl
    (by decide)).2.2 (by decide)

theorem UnsealDiskKey_ok_env {pcrSel : PCRSelection} {e eF : Env} {k : Bytes}
    (h : UnsealDiskKey pcrSel e = (.ok k, eF)) : eF = e := by
  unfold UnsealDiskKey NVReadEx at h
  cases htpm : e.tpmPresent with
  | false =>
      rw [htpm] at h
      simp at h
  | true =>
      rw [htpm] at h
      simp only [if_true] at h
      cases hpriv : e.nv TpmSealedDiskPrivHdl with
      | none =>
          rw [hpriv] at h
          simp at h
      | some priv =>
          rw [hpriv] at h
          dsimp only at h
          cases hpub : e.nv TpmSealedDiskPubHdl with
          | none =>
              rw [hpub] at h
              simp at h
          | some pub =>
              rw [hpub] at h
              dsimp only at h
              cases hld : loadSealedObj pub priv with
              | none =>
                  rw [hld] at h
                  simp at h
              | some obj =>
                  rw [hld] at h
                  dsimp only at h
                  split at h
                  · simp only [Prod.mk.injEq] at h
                    exact h.2.symm
                  · simp at h

theorem unsealAndReturn_ok {e eF : Env} {k : Bytes}
    (h : unsealAndReturn e = (.ok k, eF)) :
    UnsealDiskKey DiskKeySealingPCRs eF = (.ok k, eF) ∧ eF = e := by
  unfold unsealAndReturn at h
  rcases hu : UnsealDiskKey DiskKeySealingPCRs e with ⟨ru, e2⟩
  rw [hu] at h
  cases ru with
  | error u => simp at h
  | ok kk =>
      simp only [Prod.mk.injEq, Except.ok.injEq] at h
      obtain ⟨hk, he⟩ := h
      have hfix : e2 = e := UnsealDiskKey_ok_env hu
      subst hk
      subst he
      rw [hfix] at hu ⊢
      exact ⟨hu, rfl⟩

/-- C6: with the measurement bank supported and only a legacy key `k`
present, one FetchSealedVaultKey call (whose internal seal succeeds on a
nominal device) seals exactly the bytes of `k` as the payload of the new
sealed blob, leaves the legacy NV blob unchanged, returns `k`, and
CompareLegacyandSealedKey afterwards reports `reused`. -/
theorem C6_legacy_migration (k : Bytes) (e eF : Env)
    (hbank : e.pcrBank256Supported = true)
    (htpm : e.tpmPresent = true)
    (hw : e.unsealHwFail = false)
    (hnoseal : e.nv TpmSealedDiskPrivHdl = none)
    (hlegacy : e.nv TpmDiskKeyHdl = some k)
    (hseal : SealDiskKey k DiskKeySealingPCRs e = (.ok (), eF)) :
    FetchSealedVaultKey e = (.ok k, eF) ∧
    (∃ pol, eF.nv TpmSealedDiskPrivHdl = some (sealedPrivBlob pol k)) ∧
    eF.nv TpmDiskKeyHdl = some k ∧
    (CompareLegacyandSealedKey eF).1 = .reused := by
  have hu : UnsealDiskKey DiskKeySealingPCRs eF = (.ok k, eF) :=
    unseal_after_seal hseal hw
  obtain ⟨htpm2, hsame⟩ := SealDiskKey_ok_shape hseal
  obtain ⟨a, b, c, d, f, g, i1, j1, k1⟩ := hsame
  have htpmF : eF.tpmPresent = true := by
    rw [a]
    exact htpm
  have hrd : readDiskKey e = .ok k := by
    unfold readDiskKey NVReadEx
    rw [htpm, hlegacy]
    rfl
  have hsp : isSealedKeyPresent e = false := by
    simp [isSealedKeyPresent, hnoseal]
  have hlp : isLegacyKeyPresent e = true := by
    simp [isLegacyKeyPresent, hrd]
  have hnvLegacy : eF.nv TpmDiskKeyHdl = some k := by
    rw [d, sealNVStage_nv_other k DiskKeySealingPCRs e TpmDiskKeyHdl
      (by decide) (by decide)]
    exact hlegacy
  have hnvPriv : eF.nv TpmSealedDiskPrivHdl =
      some (sealedPrivBlob (PolicyPCRSessionDigest DiskKeySealingPCRs e.pcr) k) := by
    rw [d]
    exact sealNVStage_nv_priv k DiskKeySealingPCRs e
  refine ⟨?_, ⟨_, hnvPriv⟩, hnvLegacy, ?_⟩
  · unfold FetchSealedVaultKey PCRBankSHA256Enabled
    rw [hbank]
    simp only [if_true, hsp, hlp, Bool.not_false, Bool.not_true, Bool.and_false,
      Bool.and_true, Bool.false_and, if_false]
    rw [hrd]
    dsimp only
    rw [hseal]
    dsimp only
    unfold unsealAndReturn
    rw [hu]
    simp
  · unfold CompareLegacyandSealedKey
    have hspF : isSealedKeyPresent eF = true := by
      simp [isSealedKeyPresent, hnvPriv, htpmF]
    have hrdF : readDiskKey eF = .ok k := by
      unfold readDiskKey NVReadEx
      rw [htpmF, hnvLegacy]
      rfl
    rw [hspF]
    simp only [if_true]
    rw [hrdF]
    dsimp only
    rw [hu]
    dsimp only
    simp

/-- An environment holding only a legacy key. -/
def envC6 : Env :=
  { env0 with nv := fun h => if h = TpmDiskKeyHdl then some k0 else none }

/-- Witness for C6 at a concrete legacy-only environment: the relationship
reported after the migrating call is `reused`. -/
theorem C6_legacy_migration_witness :
    (CompareLegacyandSealedKey (SealDiskKey k0 DiskKeySealingPCRs envC6).2).1 =
      .reused :=
  (C6_legacy_migration k0 envC6 (SealDiskKey k0 DiskKeySealingPCRs envC6).2
    rfl rfl rfl rfl rfl (by rfl)).2.2.2

/-- C9: when the measurement bank is supported, every successful
FetchSealedVaultKey call returns a key obtained from UnsealDiskKey on the
final state — in particular the sealed blob is unsealable under the current
PCR values of the returned state. -/
theorem C9_fetch_success_unsealable (e eF : Env) (k : Bytes)
    (hbank : e.pcrBank256Supported = true)
    (hrun : FetchSealedVaultKey e = (.ok k, eF)) :
    UnsealDiskKey DiskKeySealingPCRs eF = (.ok k, eF) := by
  unfold FetchSealedVaultKey PCRBankSHA256Enabled at hrun
  rw [hbank] at hrun
  simp only [if_true] at hrun
  split at hrun
  · cases hgr : GetRandom e vaultKeyLength with
    | error u =>
        rw [hgr] at hrun
        simp at hrun
    | ok key =>
        rw [hgr] at hrun
        dsimp only at hrun
        rcases hs : SealDiskKey key DiskKeySealingPCRs e with ⟨rs, e2⟩
        rw [hs] at hrun
        cases rs with
        | error s => simp at hrun
        | ok u => exact (unsealAndReturn_ok hrun).1
  · split at hrun
    · cases hrd : readDiskKey e with
      | error u =>
          rw [hrd] at hrun
          simp at hrun
      | ok key =>
          rw [hrd] at hrun
          dsimp only at hrun
          rcases hs : SealDiskKey key DiskKeySealingPCRs e with ⟨rs, e2⟩
          rw [hs] at hrun
          cases rs with
          | error s => simp at hrun
          | ok u => exact (unsealAndReturn_ok hrun).1
    · exact (unsealAndReturn_ok hrun).1

/-- An environment holding a sealed key bound to the live registers. -/
def envC9 : Env :=
  { env0 with
    nv := fun h =>
      if h = TpmSealedDiskPrivHdl then
        some (sealedPrivBlob (PolicyPCRSessionDigest DiskKeySealingPCRs env0.pcr) k0)
      else if h = TpmSealedDiskPubHdl then
        some (sealedPubBlob (PolicyPCRSessionDigest DiskKeySealingPCRs env0.pcr))
      else none }

/-- Witness for C9 at a concrete sealed-key environment. -/
theorem C9_fetch_success_unsealable_witness :
    UnsealDiskKey DiskKeySealingPCRs (FetchSealedVaultKey envC9).2 =
      (.ok k0, (FetchSealedVaultKey envC9).2) :=
  C9_fetch_success_unsealable envC9 (FetchSealedVaultKey envC9).2 k0 rfl (by rfl)

/-- C7: without SHA256-bank support, FetchSealedVaultKey operates purely on
the legacy path: it behaves exactly as FetchVaultKey, returning the existing
legacy key when readable and otherwise generating exactly 32 bytes from the
module RNG, persisting them as the legacy NV blob and returning them; no
seal or unseal is attempted — the sealed NV indices and the PCR snapshot
file are untouched. -/
theorem C7_legacy_only_mode (e : Env) (hbank : e.pcrBank256Supported = false) :
    FetchSealedVaultKey e = FetchVaultKey e ∧
    (∀ k, readDiskKey e = .ok k → FetchSealedVaultKey e = (.ok k, e)) ∧
    (readDiskKey e = .error () → e.tpmPresent = true →
      FetchSealedVaultKey e =
        (.ok ((List.range vaultKeyLength).map (fun n => e.rng n % 256)),
         (writeDiskKey e ((List.range vaultKeyLength).map (fun n => e.rng n % 256))).2) ∧
      ((List.range vaultKeyLength).map (fun n => e.rng n % 256)).length = 32 ∧
      GetRandom e vaultKeyLength =
        .ok ((List.range vaultKeyLength).map (fun n => e.rng n % 256)) ∧
      ((writeDiskKey e
          ((List.range vaultKeyLength).map (fun n => e.rng n % 256))).2).nv
          TpmDiskKeyHdl =
        some ((List.range vaultKeyLength).map (fun n => e.rng n % 256))) ∧
    (FetchSealedVaultKey e).2.nv TpmSealedDiskPrivHdl = e.nv TpmSealedDiskPrivHdl ∧
    (FetchSealedVaultKey e).2.nv TpmSealedDiskPubHdl = e.nv TpmSealedDiskPubHdl ∧
    (FetchSealedVaultKey e).2.files Path.savedPcrs = e.files Path.savedPcrs := by
  have hfv : FetchSealedVaultKey e = FetchVaultKey e := by
    unfold FetchSealedVaultKey PCRBankSHA256Enabled
    rw [hbank]
    rfl
  have hleg : ∀ k, readDiskKey e = .ok k → FetchVaultKey e = (.ok k, e) := by
    intro k hk
    unfold FetchVaultKey
    rw [hk]
  refine ⟨hfv, ?_, ?_, ?_⟩
  · intro k hk
    rw [hfv]
    exact hleg k hk
  · intro herr htpm
    have hgr : GetRandom e vaultKeyLength =
        .ok ((List.range vaultKeyLength).map (fun n => e.rng n % 256)) := by
      unfold GetRandom
      rw [htpm]
      rfl
    have hwd : writeDiskKey e ((List.range vaultKeyLength).map (fun n => e.rng n % 256)) =
        (.ok (), NVDefineWrite (NVUndefineSpace e TpmDiskKeyHdl) TpmDiskKeyHdl
          ((List.range vaultKeyLength).map (fun n => e.rng n % 256))) := by
      unfold writeDiskKey
      rw [htpm]
      rfl
    refine ⟨?_, by simp [vaultKeyLength], hgr, ?_⟩
    · rw [hfv]
      unfold FetchVaultKey
      rw [herr]
      dsimp only
      rw [hgr]
      dsimp only
      rw [hwd]
    · rw [hwd]
      simp [NVDefineWrite]
  · rw [hfv]
    cases hrd : readDiskKey e with
    | ok key =>
        rw [hleg key hrd]
        exact ⟨rfl, rfl, rfl⟩
    | error u =>
        unfold FetchVaultKey
        rw [hrd]
        dsimp only
        cases htpm : e.tpmPresent with
        | false =>
            have hgr : GetRandom e vaultKeyLength = .error () := by
              unfold GetRandom
              rw [htpm]
              rfl
            rw [hgr]
            exact ⟨rfl, rfl, rfl⟩
        | true =>
            have hgr : GetRandom e vaultKeyLength =
                .ok ((List.range vaultKeyLength).map (fun n => e.rng n % 256)) := by
              unfold GetRandom
              rw [htpm]
              rfl
            rw [hgr]
            dsimp only
            have hwd : writeDiskKey e
                ((List.range vaultKeyLength).map (fun n => e.rng n % 256)) =
                (.ok (), NVDefineWrite (NVUndefineSpace e TpmDiskKeyHdl) TpmDiskKeyHdl
                  ((List.range vaultKeyLength).map (fun n => e.rng n % 256))) := by
              unfold writeDiskKey
              rw [htpm]
              rfl
            rw [hwd]
            refine ⟨?_, ?_, rfl⟩
            · simp [NVDefineWrite, NVUndefineSpace,
                TpmSealedDiskPrivHdl, TpmDiskKeyHdl]
            · simp [NVDefineWrite, NVUndefineSpace,
                TpmSealedDiskPubHdl, TpmDiskKeyHdl]

/-- An environment without SHA256-bank support. -/
def envC7 : Env :=
  { env0 with pcrBank256Supported := false }

/-- Witness for C7: at a concrete bank-less environment, FetchSealedVaultKey
is exactly FetchVaultKey. -/
theorem C7_legacy_only_mode_witness :
    FetchSealedVaultKey envC7 = FetchVaultKey envC7 :=
  (C7_legacy_only_mode envC7 rfl).1

/-- The number of device indices the rotation loop fails to handle, threading
the state exactly as the loop does. -/
def backupFailCount : List Nat → Env → Nat
  | [], _ => 0
  | i :: rest, e =>
      match backupStep e i with
      | (e2, handled) => (if handled then 0 else 1) + backupFailCount rest e2

theorem backupFailCount_le (l : List Nat) (e : Env) :
    backupFailCount l e ≤ l.length := by
  induction l generalizing e with
  | nil => simp [backupFailCount]
  | cons i rest ih =>
      unfold backupFailCount
      rcases hs : backupStep e i with ⟨e2, handled⟩
      have := ih e2
      cases handled <;> simp <;> omega

theorem backupLoop_count (l : List Nat) :
    ∀ (e : Env) (n : Nat),
      (backupLoop l e n).2 = n - (l.length - backupFailCount l e) := by
  induction l with
  | nil =>
      intro e n
      simp [backupLoop, backupFailCount]
  | cons i rest ih =>
      intro e n
      unfold backupLoop backupFailCount
      rcases hs : backupStep e i with ⟨e2, handled⟩
      have hle := backupFailCount_le rest e2
      cases handled with
      | true =>
          dsimp only
          rw [if_pos (rfl : true = true), if_pos (rfl : true = true),
            ih e2 (n - 1)]
          simp only [List.length_cons]
          omega
      | false =>
          dsimp only
          rw [if_neg (by decide : ¬(false = true)),
            if_neg (by decide : ¬(false = true)), ih e2 n]
          simp only [List.length_cons]
          omega

/-- C8: the backup rotation renames the two log copies of a device index
only when both exist (indices missing either copy are counted as handled
without any renaming); when the second rename fails after the first
succeeded, the first rename is rolled back best-effort and the index is
counted as failed; and the aggregate call fails exactly when at least one
index failed, reporting the count of failed indices. -/
theorem C8_backup_rotation (e : Env) (htpm : 1 ≤ e.tpmCount) :
    ((backupCopiedMeasurementLogs e).1 = .ok () ↔
      backupFailCount (List.range e.tpmCount) e = 0) ∧
    (∀ n, (backupCopiedMeasurementLogs e).1 = .error (.leftOver n) →
      n = backupFailCount (List.range e.tpmCount) e ∧ 1 ≤ n) ∧
    (∀ e2 i, ¬(((e2.files (Path.sealSuccess i)).isSome &&
        (e2.files (Path.unsealFail i)).isSome) = true) →
      backupStep e2 i = (e2, true)) ∧
    (∀ e2 i, (e2.files (Path.sealSuccess i)).isSome = true →
      (e2.files (Path.unsealFail i)).isSome = true →
      e2.renameOk (Path.sealSuccess i) (Path.sealSuccessBackup i) = true →
      e2.renameOk (Path.unsealFail i) (Path.unsealFailBackup i) = false →
      backupStep e2 i =
        ((osRename ((osRename e2 (Path.sealSuccess i) (Path.sealSuccessBackup i)).2)
          (Path.sealSuccessBackup i) (Path.sealSuccess i)).2, false)) := by
  have hcz : ¬(e.tpmCount = 0) := by omega
  have hshape : backupCopiedMeasurementLogs e =
      (match backupLoop (List.range e.tpmCount) e e.tpmCount with
       | (e2, leftToBackup) =>
           if leftToBackup = 0 then ((.ok () : Except ArchErr Unit), e2)
           else (.error (.leftOver leftToBackup), e2)) := by
    unfold backupCopiedMeasurementLogs
    rw [if_neg hcz]
  rcases hl : backupLoop (List.range e.tpmCount) e e.tpmCount with ⟨e2, left⟩
  rw [hl] at hshape
  dsimp only at hshape
  have hleft : left = backupFailCount (List.range e.tpmCount) e := by
    have hc := backupLoop_count (List.range e.tpmCount) e e.tpmCount
    rw [hl] at hc
    have hle := backupFailCount_le (List.range e.tpmCount) e
    simp only [List.length_range] at hc hle
    omega
  refine ⟨?_, ?_, ?_, ?_⟩
  · rw [hshape]
    by_cases hz : left = 0
    · rw [if_pos hz]
      simp [← hleft, hz]
    · rw [if_neg hz]
      constructor
      · intro hcontra
        simp at hcontra
      · intro hfc
        rw [← hleft] at hfc
        exact absurd hfc hz
  · intro n hn
    rw [hshape] at hn
    by_cases hz : left = 0
    · rw [if_pos hz] at hn
      simp at hn
    · rw [if_neg hz] at hn
      simp only [ArchErr.leftOver.injEq, Except.error.injEq] at hn
      constructor
      · rw [← hn, hleft]
      · omega
  · intro e2a i hno
    unfold backupStep
    rw [if_neg hno]
  · intro e2a i h1 h2 h3 h4
    obtain ⟨d1, hd1⟩ := Option.isSome_iff_exists.mp h1
    unfold backupStep
    rw [if_pos (by rw [h1, h2]; rfl)]
    have hr1 : osRename e2a (Path.sealSuccess i) (Path.sealSuccessBackup i) =
        (.ok (), putFile (delFile e2a (Path.sealSuccess i)) (Path.sealSuccessBackup i) d1) := by
      unfold osRename
      rw [hd1]
      dsimp only
      rw [if_pos h3]
    rw [hr1]
    dsimp only
    obtain ⟨d2, hd2⟩ := Option.isSome_iff_exists.mp h2
    have hfiles2 : (putFile (delFile e2a (Path.sealSuccess i))
        (Path.sealSuccessBackup i) d1).files (Path.unsealFail i) = some d2 := by
      rw [files_putFile_ne _ _ _ _ (by intro hh; cases hh),
        files_delFile_ne _ _ _ (by intro hh; cases hh)]
      exact hd2
    have hr2 : osRename (putFile (delFile e2a (Path.sealSuccess i))
        (Path.sealSuccessBackup i) d1) (Path.unsealFail i) (Path.unsealFailBackup i) =
        (.error (), putFile (delFile e2a (Path.sealSuccess i))
          (Path.sealSuccessBackup i) d1) := by
      unfold osRename
      rw [hfiles2]
      dsimp only
      rw [if_neg (by rw [show (putFile (delFile e2a (Path.sealSuccess i))
        (Path.sealSuccessBackup i) d1).renameOk = e2a.renameOk from rfl, h4]; simp)]
    rw [hr2]

/-- Witness for C8: on a concrete environment with one device and no copies,
the rotation succeeds. -/
theorem C8_backup_rotation_witness :
    (backupCopiedMeasurementLogs env0).1 = .ok () :=
  ((C8_backup_rotation env0 (by decide)).1).mpr (by decide)

/-- C10: for every credential file contents, ReadOwnerCrdl never returns
more than MaxPasswdLength (7) bytes: longer contents are silently truncated
to their first 7 bytes rather than rejected, shorter contents are returned
unchanged. -/
theorem C10_readOwnerCrdl_truncates (e : Env) (b : Bytes)
    (hfile : e.files Path.tpmCredentials = some (.blob b)) :
    ReadOwnerCrdl e =
      .ok (if MaxPasswdLength < b.length then b.take MaxPasswdLength else b) ∧
    (∀ r, ReadOwnerCrdl e = .ok r → r.length ≤ MaxPasswdLength ∧
      (b.length ≤ MaxPasswdLength → r = b)) := by
  have h1 : ReadOwnerCrdl e =
      .ok (if MaxPasswdLength < b.length then b.take MaxPasswdLength else b) := by
    unfold ReadOwnerCrdl
    rw [hfile]
  refine ⟨h1, ?_⟩
  intro r hr
  rw [h1] at hr
  injection hr with hr2
  constructor
  · rw [← hr2]
    by_cases hlen : MaxPasswdLength < b.length
    · rw [if_pos hlen]
      simp [MaxPasswdLength]
    · rw [if_neg hlen]
      omega
  · intro hle
    rw [← hr2, if_neg (by omega)]

/-- A credential file longer than the password bound. -/
def credC10 : Bytes := [1, 2, 3, 4, 5, 6, 7, 8, 9, 10]

/-- An environment whose credential file holds ten bytes. -/
def envC10 : Env :=
  { env0 with
    files := fun p =>
      if p = Path.tpmCredentials then some (.blob credC10) else none }

/-- Witness for C10 at a concrete over-long credential file. -/
theorem C10_readOwnerCrdl_truncates_witness :
    ReadOwnerCrdl envC10 =
      .ok (if MaxPasswdLength < credC10.length then credC10.take MaxPasswdLength
           else credC10) :=
  (C10_readOwnerCrdl_truncates envC10 credC10 rfl).1

end EveTpm
